import Mathlib

/-!
# Verification of the `cdk_polly_website` asynchronous job-processing workflow

The repository declares AWS CDK infrastructure (`src/infrastructure/lib/
cdk_polly_website-stack.ts`): a DynamoDB table (`posts`), an S3 bucket, an
SNS topic, three Lambda functions (`PostReader_NewPost`,
`PostReader_ConvertToAudio`, `PostReader_GetPost`) and an API Gateway
RestApi with a `GET` and a `POST` method on its root resource.

The Lambda handler bodies are loaded with `lambda.Code.fromAsset('lambda')`
and the `lambda/` directory is not part of the checked-in sources, so the
workflow logic (Submission API, Synthesis Worker, Query API, Job Store
access) is modelled from the specification.  The API Gateway method and
integration configuration IS in the sources and is embedded directly below
(section `REST surface`).
-/

namespace PollyWorkflow

/-- Modelled from the spec: job lifecycle states.  The spec data model
(§3) gives `status ∈ {PENDING, PROCESSING, COMPLETE, FAILED}`.  (The
handler code that writes this field is in the missing `lambda/` asset.) -/
inductive Status where
  | PENDING
  | PROCESSING
  | COMPLETE
  | FAILED
deriving DecidableEq, Repr

/-- Modelled from the spec: the Job record (§3): `id` (unique, generated at
submission), `status`, `text`, `voice`, `artifactRef` (nullable pointer to
the stored output), `updatedAt`, plus the error note that §4.3 attaches to
a FAILED job. -/
structure Job where
  id : String
  status : Status
  text : String
  voice : String
  artifactRef : Option String
  updatedAt : Nat
  errorNote : Option String
deriving DecidableEq, Repr

/-- Modelled from the spec: the Job Store (§2.2), a durable map keyed by
job id, embedded as an association list. -/
abbrev Store := List (String × Job)

/-- Look a job up by id (first matching entry). -/
def lookupJob (s : Store) (jobId : String) : Option Job :=
  match s with
  | [] => none
  | (k, j) :: rest => if k = jobId then some j else lookupJob rest jobId

/-- Write a job record: replace the first entry with this id, or append a
new entry when the id is absent. -/
def putJob (s : Store) (jobId : String) (j : Job) : Store :=
  match s with
  | [] => [(jobId, j)]
  | (k, j') :: rest =>
      if k = jobId then (jobId, j) :: rest else (k, j') :: putJob rest jobId j

/-! ## Submission API (`PostReader_NewPost`) -/

/-- Modelled from the spec: Submission API failure kinds (§4.1, §7):
`ValidationError` on malformed input, `StoreUnavailable` when persistence
fails.  (The handler `PostReader_NewPost.handler` is in the missing
`lambda/` asset.) -/
inductive SubmitError where
  | ValidationError
  | StoreUnavailable
deriving DecidableEq, Repr

/-- Modelled from the spec: input validation of the Submission API (§4.1):
non-empty text and a known voice identifier.  The set of known voices is a
parameter (the source only fixes that Amazon Polly voices are used). -/
def validSubmission (knownVoices : List String) (voice text : String) : Bool :=
  text ≠ "" && knownVoices.contains voice

/-- Result of one Submission API call: the outcome returned to the caller,
the Job Store afterwards, and the list of job ids published as
"job created" events on the bus. -/
structure SubmitResult where
  outcome : Except SubmitError String
  store : Store
  published : List String
deriving Repr

/-- Modelled from the spec: the Submission API / `PostReader_NewPost`
(§4.1, and the stack comment at lines 118–124): validates the input,
creates a Job record with status PENDING, publishes a "job created" event
holding the new job id, and returns the id.  On `ValidationError` or
`StoreUnavailable` (modelled by the `storeUp` flag) nothing is written and
no event is published.  `freshId` is the id generated for this submission. -/
def newPost (knownVoices : List String) (storeUp : Bool) (s : Store)
    (freshId voice text : String) (now : Nat) : SubmitResult :=
  if ¬ validSubmission knownVoices voice text then
    { outcome := .error .ValidationError, store := s, published := [] }
  else if ¬ storeUp then
    { outcome := .error .StoreUnavailable, store := s, published := [] }
  else
    { outcome := .ok freshId,
      store := putJob s freshId
        { id := freshId, status := .PENDING, text := text, voice := voice,
          artifactRef := none, updatedAt := now, errorNote := none },
      published := [freshId] }

/-! ## Query API (`PostReader_GetPost`) -/

/-- Modelled from the spec: Query API failure kind (§4.4): `NotFound` for
an unknown job id. -/
inductive QueryError where
  | NotFound
deriving DecidableEq, Repr

/-- Modelled from the spec: the Query API / `PostReader_GetPost` (§4.4 and
the stack comment at lines 158–161): returns the current Job record for
the id, or `NotFound`; it is read-only, so the resulting store is returned
alongside to state that explicitly. -/
def getPost (s : Store) (jobId : String) : Except QueryError Job × Store :=
  match lookupJob s jobId with
  | some j => (.ok j, s)
  | none => (.error .NotFound, s)

/-! ## Synthesis Worker (`PostReader_ConvertToAudio`) -/

/-- Modelled from the spec: outcome of the external text-to-audio
conversion (§6): success with audio bytes, a conversion failure
(`ConversionFailure`, §7), or hitting the bounded timeout (§5). -/
inductive ConvOutcome where
  | success (audio : String)
  | failure (err : String)
  | timedOut
deriving DecidableEq, Repr

/-- The conversion timeout of the reference deployment, from
`timeout: cdk.Duration.seconds(300)` on `PostReader_ConvertToAudio`
(stack line 149). -/
def convTimeoutSeconds : Nat := 300

/-- Modelled from the spec: the bounded conversion call (§5).  A raw
conversion attempt takes `elapsed` seconds and would produce `raw`; the
worker observes `raw` only when the attempt finishes strictly before the
timeout, and otherwise observes `timedOut`. -/
def boundedConversion (timeoutS : Nat) (elapsed : Nat) (raw : Except String String) :
    ConvOutcome :=
  if elapsed ≥ timeoutS then .timedOut
  else
    match raw with
    | .ok audio => .success audio
    | .error e => .failure e

/-- Seconds the worker actually spends blocked on a conversion attempt:
the attempt's own duration, cut off at the timeout. -/
def conversionWaitSeconds (timeoutS : Nat) (elapsed : Nat) : Nat :=
  min elapsed timeoutS

/-- Modelled from the spec: the atomic conditional PENDING→PROCESSING
transition (§5): a compare-and-swap on `status` that succeeds only when
the job exists and its status is PENDING, setting PROCESSING. -/
def casPending (s : Store) (jobId : String) (now : Nat) : Option Store :=
  match lookupJob s jobId with
  | some j =>
      if j.status = .PENDING then
        some (putJob s jobId { j with status := .PROCESSING, updatedAt := now })
      else none
  | none => none

/-- The record the worker writes back after the conversion: COMPLETE with
the reference to the stored artifact on success, FAILED with an error note
on a conversion failure or a timeout. -/
def finalJob (jobId : String) (j : Job) (out : ConvOutcome) (now : Nat) : Job :=
  match out with
  | .success audio =>
      { j with status := .COMPLETE,
               artifactRef := some (jobId ++ ".mp3#" ++ audio), updatedAt := now }
  | .failure e =>
      { j with status := .FAILED, errorNote := some e, updatedAt := now }
  | .timedOut =>
      { j with status := .FAILED,
               errorNote := some "conversion timed out", updatedAt := now }

/-- Modelled from the spec: the final status update of the worker (§4.3):
a conditional update that moves a PROCESSING job to its terminal record
(`finalJob`).  It is a no-op unless the job is PROCESSING. -/
def finalize (s : Store) (jobId : String) (out : ConvOutcome) (now : Nat) : Store :=
  match lookupJob s jobId with
  | some j =>
      if j.status = .PROCESSING then putJob s jobId (finalJob jobId j out now)
      else s
  | none => s

/-- Modelled from the spec: the Synthesis Worker / `PostReader_ConvertToAudio`
(§4.3 and the stack comment at lines 137–143) handling one "job created"
event carrying `jobId`: load the job; if its status is not PENDING, exit as
an idempotent no-op; otherwise transition to PROCESSING via the
compare-and-swap, run the conversion, and finalize to COMPLETE or FAILED. -/
def convertToAudio (s : Store) (jobId : String) (out : ConvOutcome) (now : Nat) :
    Store :=
  match casPending s jobId now with
  | none => s
  | some s1 => finalize s1 jobId out now

/-! ## Atomic system actions

Every evolution of the Job Store is a sequence of these atomic actions:
a Submission API call, a worker compare-and-swap past PENDING→PROCESSING,
or a worker final status update.  `convertToAudio` above is literally the
composition of a `cas` action and a `finish` action, so interleavings of
concurrent worker instances are exactly the action sequences. -/

/-- One atomic step against the Job Store.  In `submit`, ids are generated
uniquely at submission (spec §3), which the semantics reflects by making a
submission with an already-present id impossible (a no-op). -/
inductive Action where
  | submit (knownVoices : List String) (storeUp : Bool)
      (freshId voice text : String) (now : Nat)
  | cas (jobId : String) (now : Nat)
  | finish (jobId : String) (out : ConvOutcome) (now : Nat)

/-- Apply one atomic action to the Job Store. -/
def applyAction (s : Store) (a : Action) : Store :=
  match a with
  | .submit kv up freshId voice text now =>
      if (lookupJob s freshId).isSome then s
      else (newPost kv up s freshId voice text now).store
  | .cas jobId now => (casPending s jobId now).getD s
  | .finish jobId out now => finalize s jobId out now

/-- Run a sequence of atomic actions. -/
def run (s : Store) (acts : List Action) : Store :=
  acts.foldl applyAction s

/-- The allowed status evolution of a single job between two observed
states: stay put, PENDING→PROCESSING, or PROCESSING→{COMPLETE, FAILED}. -/
def statusStep (a b : Status) : Bool :=
  decide (a = b) ||
    (match a, b with
     | .PENDING, .PROCESSING => true
     | .PROCESSING, .COMPLETE => true
     | .PROCESSING, .FAILED => true
     | _, _ => false)

/-- The per-record invariant of the spec data model (§3): `artifactRef` is
set if and only if the status is COMPLETE. -/
def jobInv (j : Job) : Bool :=
  j.artifactRef.isSome = decide (j.status = .COMPLETE)

/-- Every record of the store satisfies `jobInv`. -/
def storeInv (s : Store) : Bool :=
  s.all fun p => jobInv p.2

/-- Between two store states, every job present in both moved only along
an allowed status step. -/
def storeStepOk (s s' : Store) : Prop :=
  ∀ jobId j j', lookupJob s jobId = some j → lookupJob s' jobId = some j' →
    statusStep j.status j'.status = true

/-- Whether one atomic action is a successful compare-and-swap past
PENDING→PROCESSING for this job id, from this store state. -/
def casSuccess (s : Store) (jobId : String) (a : Action) : Bool :=
  match a with
  | .cas jobId2 now => decide (jobId2 = jobId) && (casPending s jobId2 now).isSome
  | _ => false

/-- How many deliveries proceed past the PENDING→PROCESSING transition for
this job id along a sequence of atomic actions. -/
def casSuccessCount (s : Store) (jobId : String) : List Action → Nat
  | [] => 0
  | a :: rest =>
      (if casSuccess s jobId a then 1 else 0) +
        casSuccessCount (applyAction s a) jobId rest

/-! ## REST surface (`PostReaderAPI`)

This part of the system IS in the checked-in source
(`src/infrastructure/lib/cdk_polly_website-stack.ts`, lines 177–271) and
is embedded here as literal configuration data. -/

/-- A single-character regex class, the building block of the integration
selection patterns of the source.  `dot` is the regex `.` (any character
except a newline), `lit` a literal character, `alt` an alternation. -/
inductive CharRx where
  | lit (c : Char)
  | dot
  | alt (a b : CharRx)
deriving DecidableEq, Repr

def CharRx.matchesChar : CharRx → Char → Bool
  | .lit c, d => c == d
  | .dot, d => d != '\n'
  | .alt a b, d => a.matchesChar d || b.matchesChar d

/-- The language of the regex `r+` for a single-character class `r`: one
or more characters, each matching `r`. -/
def plusMatches (r : CharRx) (s : String) : Bool :=
  !s.isEmpty && s.toList.all r.matchesChar

/-- One `integrationResponses` entry of a `LambdaIntegration` in the stack:
an optional selection pattern (every pattern in the source is `X+` for a
single-character class `X`, held here as that class), the status code, and
the value mapped to the `Access-Control-Allow-Origin` response header. -/
structure IntegrationResponse where
  selectionPattern : Option CharRx
  statusCode : String
  corsAllowOrigin : Option String
deriving DecidableEq, Repr

/-- One `methodResponses` entry of an `addMethod` call in the stack: the
status code and whether the `Access-Control-Allow-Origin` header is
declared (`true` in the source). -/
structure MethodResponse where
  statusCode : String
  corsHeaderEnabled : Bool
deriving DecidableEq, Repr

/-- The selection pattern `(\n|.)+` used by both error integration
responses in the stack (lines 205 and 248), as the single-character class
`(\n|.)` under `+`. -/
def anyCharClass : CharRx := .alt (.lit '\n') .dot

/-- The stack maps `Access-Control-Allow-Origin` to the literal header
value `*` on every integration response (written as a quoted string in
the CDK source). -/
def corsWildcard : String := "*"

/-- `getPostIntegration.integrationResponses` (stack lines 193–211): a 200
response and a 500 response selected by `(\n|.)+`, both with the CORS
wildcard header. -/
def getPostIntegrationResponses : List IntegrationResponse :=
  [ { selectionPattern := none, statusCode := "200",
      corsAllowOrigin := some corsWildcard },
    { selectionPattern := some anyCharClass, statusCode := "500",
      corsAllowOrigin := some corsWildcard } ]

/-- `newPostIntegration.integrationResponses` (stack lines 236–254):
textually the same configuration as the GET integration. -/
def newPostIntegrationResponses : List IntegrationResponse :=
  [ { selectionPattern := none, statusCode := "200",
      corsAllowOrigin := some corsWildcard },
    { selectionPattern := some anyCharClass, statusCode := "500",
      corsAllowOrigin := some corsWildcard } ]

/-- One method on the API root, as configured by `api.root.addMethod`. -/
structure MethodCfg where
  httpMethod : String
  integrationResponses : List IntegrationResponse
  requiredQuerystringParams : List String
  methodResponses : List MethodResponse
deriving DecidableEq, Repr

/-- `api.root.addMethod('GET', getPostIntegration, ...)` (stack lines
214–232): requires the `postId` querystring parameter and declares the
CORS header on its 200 and 500 method responses. -/
def getMethodCfg : MethodCfg :=
  { httpMethod := "GET",
    integrationResponses := getPostIntegrationResponses,
    requiredQuerystringParams := ["postId"],
    methodResponses :=
      [ { statusCode := "200", corsHeaderEnabled := true },
        { statusCode := "500", corsHeaderEnabled := true } ] }

/-- `api.root.addMethod('POST', newPostIntegration, ...)` (stack lines
256–271): no required querystring parameters; declares the CORS header on
its 200 and 500 method responses. -/
def postMethodCfg : MethodCfg :=
  { httpMethod := "POST",
    integrationResponses := newPostIntegrationResponses,
    requiredQuerystringParams := [],
    methodResponses :=
      [ { statusCode := "200", corsHeaderEnabled := true },
        { statusCode := "500", corsHeaderEnabled := true } ] }

/-- The methods added to `api.root` in the stack, in source order. -/
def apiRootMethods : List MethodCfg := [getMethodCfg, postMethodCfg]

/-- The `allowOrigins` of the `defaultCorsPreflightOptions` of the
RestApi (stack line 180): `apigw.Cors.ALL_ORIGINS`, i.e. the wildcard. -/
def apiCorsAllowOrigins : List String := ["*"]

/-- Selection of an integration response, as API Gateway evaluates the
embedded configuration: with no error output the patternless (default)
response applies; with an error output, the first response whose
selection pattern matches it, falling back to the default response when
none does. -/
def selectIntegrationResponse (rs : List IntegrationResponse)
    (errorOutput : Option String) : Option IntegrationResponse :=
  match errorOutput with
  | none => rs.find? fun r => r.selectionPattern.isNone
  | some e =>
      match rs.find? (fun r =>
        match r.selectionPattern with
        | some p => plusMatches p e
        | none => false) with
      | some r => some r
      | none => rs.find? fun r => r.selectionPattern.isNone

/-- A job as created by the scenario of spec §8: submit
`{text: "hello", voice: "en-US-1"}`. -/
def demoJobPending : Job :=
  { id := "J1", status := .PENDING, text := "hello", voice := "en-US-1",
    artifactRef := none, updatedAt := 0, errorNote := none }

/-- A one-job store holding `demoJobPending` under its id. -/
def demoStore : Store := [("J1", demoJobPending)]

/-! ## Theorems -/

theorem lookupJob_putJob_self (s : Store) (jobId : String) (j : Job) :
    lookupJob (putJob s jobId j) jobId = some j := by
  induction s with
  | nil => simp [putJob, lookupJob]
  | cons hd tl ih =>
      obtain ⟨k, j'⟩ := hd
      by_cases hk : k = jobId
      · simp [putJob, hk, lookupJob]
      · simp [putJob, hk, lookupJob, ih]

theorem lookupJob_putJob_other (s : Store) (jobId other : String) (j : Job)
    (h : other ≠ jobId) :
    lookupJob (putJob s jobId j) other = lookupJob s other := by
  induction s with
  | nil =>
      simp only [putJob, lookupJob]
      rw [if_neg (Ne.symm h)]
  | cons hd tl ih =>
      obtain ⟨k, j'⟩ := hd
      by_cases hk : k = jobId
      · subst hk
        simp only [putJob, if_pos rfl, lookupJob]
        rw [if_neg (Ne.symm h), if_neg (Ne.symm h)]
      · simp only [putJob, if_neg hk, lookupJob]
        by_cases ho : k = other
        · rw [if_pos ho, if_pos ho]
        · rw [if_neg ho, if_neg ho, ih]

theorem putJob_length_fresh (s : Store) (jobId : String) (j : Job)
    (hl : lookupJob s jobId = none) :
    (putJob s jobId j).length = s.length + 1 := by
  induction s with
  | nil => rfl
  | cons hd tl ih =>
      obtain ⟨k, j'⟩ := hd
      simp only [lookupJob] at hl
      by_cases hk : k = jobId
      · rw [if_pos hk] at hl
        cases hl
      · rw [if_neg hk] at hl
        simp only [putJob, if_neg hk, List.length_cons, ih hl]

theorem statusStep_refl (a : Status) : statusStep a a = true := by
  simp [statusStep]

theorem storeStepOk_refl (s : Store) : storeStepOk s s := by
  intro jobId j j' h h'
  rw [h] at h'
  cases h'
  exact statusStep_refl _

theorem storeInv_lookup (s : Store) (jobId : String) (j : Job)
    (hinv : storeInv s = true) (hl : lookupJob s jobId = some j) :
    jobInv j = true := by
  induction s with
  | nil => simp [lookupJob] at hl
  | cons hd tl ih =>
      obtain ⟨k, j0⟩ := hd
      simp only [storeInv, List.all_cons, Bool.and_eq_true] at hinv
      simp only [lookupJob] at hl
      by_cases hk : k = jobId
      · rw [if_pos hk] at hl
        cases hl
        exact hinv.1
      · rw [if_neg hk] at hl
        exact ih hinv.2 hl

theorem storeInv_putJob (s : Store) (jobId : String) (j : Job)
    (hinv : storeInv s = true) (hj : jobInv j = true) :
    storeInv (putJob s jobId j) = true := by
  induction s with
  | nil => simp [putJob, storeInv, hj]
  | cons hd tl ih =>
      obtain ⟨k, j0⟩ := hd
      simp only [storeInv, List.all_cons, Bool.and_eq_true] at hinv
      by_cases hk : k = jobId
      · simp only [putJob, if_pos hk, storeInv, List.all_cons, Bool.and_eq_true]
        exact ⟨hj, hinv.2⟩
      · simp only [putJob, if_neg hk, storeInv, List.all_cons, Bool.and_eq_true]
        exact ⟨hinv.1, ih hinv.2⟩

theorem storeStepOk_putJob (s : Store) (jobId : String) (j0 j : Job)
    (hl : lookupJob s jobId = some j0)
    (hstep : statusStep j0.status j.status = true) :
    storeStepOk s (putJob s jobId j) := by
  intro id' j1 j2 h1 h2
  by_cases hid : id' = jobId
  · subst hid
    rw [hl] at h1
    cases h1
    rw [lookupJob_putJob_self] at h2
    cases h2
    exact hstep
  · rw [lookupJob_putJob_other s jobId id' j hid] at h2
    rw [h1] at h2
    cases h2
    exact statusStep_refl _

theorem storeStepOk_putJob_fresh (s : Store) (jobId : String) (j : Job)
    (hl : lookupJob s jobId = none) :
    storeStepOk s (putJob s jobId j) := by
  intro id' j1 j2 h1 h2
  by_cases hid : id' = jobId
  · subst hid
    rw [hl] at h1
    cases h1
  · rw [lookupJob_putJob_other s jobId id' j hid] at h2
    rw [h1] at h2
    cases h2
    exact statusStep_refl _

theorem casPending_eq_some (s : Store) (jobId : String) (now : Nat) (j : Job)
    (hl : lookupJob s jobId = some j) (hp : j.status = .PENDING) :
    casPending s jobId now =
      some (putJob s jobId { j with status := .PROCESSING, updatedAt := now }) := by
  unfold casPending
  simp only [hl]
  rw [if_pos hp]

theorem casPending_eq_none_absent (s : Store) (jobId : String) (now : Nat)
    (hl : lookupJob s jobId = none) :
    casPending s jobId now = none := by
  unfold casPending
  simp only [hl]

theorem casPending_eq_none_notPending (s : Store) (jobId : String) (now : Nat)
    (j : Job) (hl : lookupJob s jobId = some j) (hp : j.status ≠ .PENDING) :
    casPending s jobId now = none := by
  unfold casPending
  simp only [hl]
  rw [if_neg hp]

theorem casPending_some_elim {s : Store} {jobId : String} {now : Nat} {s' : Store}
    (h : casPending s jobId now = some s') :
    ∃ j, lookupJob s jobId = some j ∧ j.status = .PENDING ∧
      s' = putJob s jobId { j with status := .PROCESSING, updatedAt := now } := by
  cases hl : lookupJob s jobId with
  | none => rw [casPending_eq_none_absent s jobId now hl] at h; cases h
  | some j =>
      by_cases hp : j.status = .PENDING
      · rw [casPending_eq_some s jobId now j hl hp] at h
        exact ⟨j, rfl, hp, (Option.some.inj h).symm⟩
      · rw [casPending_eq_none_notPending s jobId now j hl hp] at h
        cases h

theorem finalize_eq_absent (s : Store) (jobId : String) (out : ConvOutcome)
    (now : Nat) (hl : lookupJob s jobId = none) :
    finalize s jobId out now = s := by
  unfold finalize
  simp only [hl]

theorem finalize_eq_notProcessing (s : Store) (jobId : String) (out : ConvOutcome)
    (now : Nat) (j : Job) (hl : lookupJob s jobId = some j)
    (hp : j.status ≠ .PROCESSING) :
    finalize s jobId out now = s := by
  unfold finalize
  simp only [hl]
  rw [if_neg hp]

theorem finalize_eq_processing (s : Store) (jobId : String) (out : ConvOutcome)
    (now : Nat) (j : Job) (hl : lookupJob s jobId = some j)
    (hp : j.status = .PROCESSING) :
    finalize s jobId out now = putJob s jobId (finalJob jobId j out now) := by
  unfold finalize
  simp only [hl]
  rw [if_pos hp]

theorem finalJob_status (jobId : String) (j : Job) (out : ConvOutcome) (now : Nat) :
    (finalJob jobId j out now).status = .COMPLETE ∨
      (finalJob jobId j out now).status = .FAILED := by
  cases out <;> simp [finalJob]

theorem finalJob_inv (jobId : String) (j : Job) (out : ConvOutcome) (now : Nat)
    (href : j.artifactRef = none) :
    jobInv (finalJob jobId j out now) = true := by
  cases out <;> simp [finalJob, jobInv, href]

theorem finalJob_step (jobId : String) (j : Job) (out : ConvOutcome) (now : Nat)
    (hp : j.status = .PROCESSING) :
    statusStep j.status (finalJob jobId j out now).status = true := by
  cases out <;> simp [finalJob, statusStep, hp]

theorem jobInv_artifactRef_none (j : Job) (hinv : jobInv j = true)
    (hst : j.status ≠ .COMPLETE) : j.artifactRef = none := by
  simp only [jobInv] at hinv
  rw [decide_eq_false hst] at hinv
  have hs : j.artifactRef.isSome = false := of_decide_eq_true hinv
  exact Option.not_isSome_iff_eq_none.mp (by simp [hs])

theorem newPost_store_cases (kv : List String) (up : Bool) (s : Store)
    (freshId voice text : String) (now : Nat) :
    (newPost kv up s freshId voice text now).store = s ∨
    (validSubmission kv voice text = true ∧ up = true ∧
      (newPost kv up s freshId voice text now).store = putJob s freshId
        { id := freshId, status := .PENDING, text := text, voice := voice,
          artifactRef := none, updatedAt := now, errorNote := none }) := by
  by_cases hv : validSubmission kv voice text = true
  · by_cases hup : up = true
    · right
      refine ⟨hv, hup, ?_⟩
      simp [newPost, hv, hup]
    · left
      simp [newPost, hv, hup]
  · left
    simp [newPost, hv]

/-- One atomic action keeps `jobInv` on every record and moves every
status only along an allowed step. -/
theorem applyAction_preserves (s : Store) (a : Action)
    (hinv : storeInv s = true) :
    storeInv (applyAction s a) = true ∧ storeStepOk s (applyAction s a) := by
  cases a with
  | submit kv up freshId voice text now =>
      simp only [applyAction]
      cases hl : lookupJob s freshId with
      | some j =>
          simp only [hl, Option.isSome_some, if_pos]
          exact ⟨hinv, storeStepOk_refl s⟩
      | none =>
          simp only [hl, Option.isSome_none, Bool.false_eq_true, if_false]
          rcases newPost_store_cases kv up s freshId voice text now with h | ⟨_, _, h⟩
          · rw [h]; exact ⟨hinv, storeStepOk_refl s⟩
          · rw [h]
            exact ⟨storeInv_putJob s freshId _ hinv (by simp [jobInv]),
              storeStepOk_putJob_fresh s freshId _ hl⟩
  | cas jobId now =>
      simp only [applyAction]
      cases h : casPending s jobId now with
      | none => exact ⟨hinv, storeStepOk_refl s⟩
      | some s' =>
          obtain ⟨j, hl, hp, rfl⟩ := casPending_some_elim h
          have href : j.artifactRef = none :=
            jobInv_artifactRef_none j (storeInv_lookup s jobId j hinv hl)
              (by rw [hp]; intro hc; cases hc)
          simp only [Option.getD_some]
          constructor
          · exact storeInv_putJob s jobId _ hinv (by simp [jobInv, href])
          · exact storeStepOk_putJob s jobId j _ hl (by rw [hp]; rfl)
  | finish jobId out now =>
      simp only [applyAction]
      cases hl : lookupJob s jobId with
      | none =>
          rw [finalize_eq_absent s jobId out now hl]
          exact ⟨hinv, storeStepOk_refl s⟩
      | some j =>
          by_cases hp : j.status = .PROCESSING
          · rw [finalize_eq_processing s jobId out now j hl hp]
            have href : j.artifactRef = none :=
              jobInv_artifactRef_none j (storeInv_lookup s jobId j hinv hl)
                (by rw [hp]; intro hc; cases hc)
            exact ⟨storeInv_putJob s jobId _ hinv (finalJob_inv jobId j out now href),
              storeStepOk_putJob s jobId j _ hl (finalJob_step jobId j out now hp)⟩
          · rw [finalize_eq_notProcessing s jobId out now j hl hp]
            exact ⟨hinv, storeStepOk_refl s⟩

/-- Once a job has left PENDING, no atomic action brings it back: a job
id is created at most once (submission ids are fresh) and every update
moves forward along the state machine. -/
theorem notPending_stable (s : Store) (a : Action) (jobId : String) (j : Job)
    (hl : lookupJob s jobId = some j) (hnp : j.status ≠ .PENDING) :
    ∃ j', lookupJob (applyAction s a) jobId = some j' ∧ j'.status ≠ .PENDING := by
  cases a with
  | submit kv up freshId voice text now =>
      simp only [applyAction]
      cases hf : lookupJob s freshId with
      | some j0 =>
          simp only [hf, Option.isSome_some, if_pos]
          exact ⟨j, hl, hnp⟩
      | none =>
          simp only [hf, Option.isSome_none, Bool.false_eq_true, if_false]
          have hne : jobId ≠ freshId := by
            intro hc; rw [hc, hf] at hl; cases hl
          rcases newPost_store_cases kv up s freshId voice text now with h | ⟨_, _, h⟩
          · rw [h]; exact ⟨j, hl, hnp⟩
          · rw [h, lookupJob_putJob_other s freshId jobId _ hne]
            exact ⟨j, hl, hnp⟩
  | cas jobId2 now =>
      simp only [applyAction]
      by_cases hid : jobId2 = jobId
      · subst hid
        rw [casPending_eq_none_notPending s jobId2 now j hl hnp]
        exact ⟨j, hl, hnp⟩
      · cases h : casPending s jobId2 now with
        | none => exact ⟨j, hl, hnp⟩
        | some s' =>
            obtain ⟨j0, _, _, rfl⟩ := casPending_some_elim h
            simp only [Option.getD_some]
            rw [lookupJob_putJob_other s jobId2 jobId _ (fun hc => hid hc.symm)]
            exact ⟨j, hl, hnp⟩
  | finish jobId2 out now =>
      simp only [applyAction]
      by_cases hid : jobId2 = jobId
      · subst hid
        by_cases hp : j.status = .PROCESSING
        · rw [finalize_eq_processing s jobId2 out now j hl hp,
            lookupJob_putJob_self]
          refine ⟨finalJob jobId2 j out now, rfl, ?_⟩
          rcases finalJob_status jobId2 j out now with h | h <;> rw [h] <;>
            intro hc <;> cases hc
        · rw [finalize_eq_notProcessing s jobId2 out now j hl hp]
          exact ⟨j, hl, hnp⟩
      · cases hl2 : lookupJob s jobId2 with
        | none =>
            rw [finalize_eq_absent s jobId2 out now hl2]
            exact ⟨j, hl, hnp⟩
        | some j2 =>
            by_cases hp : j2.status = .PROCESSING
            · rw [finalize_eq_processing s jobId2 out now j2 hl2 hp,
                lookupJob_putJob_other s jobId2 jobId _ (fun hc => hid hc.symm)]
              exact ⟨j, hl, hnp⟩
            · rw [finalize_eq_notProcessing s jobId2 out now j2 hl2 hp]
              exact ⟨j, hl, hnp⟩

theorem casSuccessCount_zero_of_notPending (acts : List Action) :
    ∀ (s : Store) (jobId : String) (j : Job),
      lookupJob s jobId = some j → j.status ≠ .PENDING →
      casSuccessCount s jobId acts = 0 := by
  induction acts with
  | nil => intro s jobId j _ _; rfl
  | cons a rest ih =>
      intro s jobId j hl hnp
      have hz : casSuccess s jobId a = false := by
        cases a with
        | submit kv up freshId voice text now => rfl
        | cas jobId2 now =>
            simp only [casSuccess]
            by_cases hid : jobId2 = jobId
            · subst hid
              rw [casPending_eq_none_notPending s jobId2 now j hl hnp]
              simp
            · simp [hid]
        | finish jobId2 out now => rfl
      obtain ⟨j', hl', hnp'⟩ := notPending_stable s a jobId j hl hnp
      simp only [casSuccessCount, hz]
      simp only [Bool.false_eq_true, if_false, Nat.zero_add]
      exact ih (applyAction s a) jobId j' hl' hnp'

theorem convertToAudio_noop (s : Store) (jobId : String) (out : ConvOutcome)
    (now : Nat) (j : Job) (hl : lookupJob s jobId = some j)
    (hnp : j.status ≠ .PENDING) :
    convertToAudio s jobId out now = s := by
  unfold convertToAudio
  rw [casPending_eq_none_notPending s jobId now j hl hnp]

theorem convertToAudio_absent (s : Store) (jobId : String) (out : ConvOutcome)
    (now : Nat) (hl : lookupJob s jobId = none) :
    convertToAudio s jobId out now = s := by
  unfold convertToAudio
  rw [casPending_eq_none_absent s jobId now hl]

theorem convertToAudio_pending (s : Store) (jobId : String) (out : ConvOutcome)
    (now : Nat) (j : Job) (hl : lookupJob s jobId = some j)
    (hp : j.status = .PENDING) :
    convertToAudio s jobId out now =
      putJob (putJob s jobId { j with status := .PROCESSING, updatedAt := now })
        jobId
        (finalJob jobId { j with status := .PROCESSING, updatedAt := now } out now) := by
  unfold convertToAudio
  rw [casPending_eq_some s jobId now j hl hp]
  exact finalize_eq_processing _ jobId out now _ (lookupJob_putJob_self s jobId _) rfl

theorem convertToAudio_pending_lookup (s : Store) (jobId : String)
    (out : ConvOutcome) (now : Nat) (j : Job) (hl : lookupJob s jobId = some j)
    (hp : j.status = .PENDING) :
    lookupJob (convertToAudio s jobId out now) jobId =
      some (finalJob jobId { j with status := .PROCESSING, updatedAt := now } out now) := by
  rw [convertToAudio_pending s jobId out now j hl hp, lookupJob_putJob_self]

theorem anyCharClass_matches (c : Char) : anyCharClass.matchesChar c = true := by
  simp only [anyCharClass, CharRx.matchesChar]
  by_cases h : c = '\n'
  · subst h; simp
  · simp [h, bne_iff_ne, Ne.symm h]

theorem plusMatches_anyCharClass (s : String) :
    plusMatches anyCharClass s = !s.isEmpty := by
  simp only [plusMatches]
  rw [List.all_eq_true.mpr fun c _ => anyCharClass_matches c]
  simp

theorem run_append_one (s : Store) (acts : List Action) (a : Action) :
    run s (acts ++ [a]) = applyAction (run s acts) a := by
  simp [run, List.foldl_append]

theorem run_preserves_inv (acts : List Action) :
    ∀ s : Store, storeInv s = true → storeInv (run s acts) = true := by
  induction acts with
  | nil => intro s h; exact h
  | cons a rest ih =>
      intro s h
      exact ih (applyAction s a) (applyAction_preserves s a h).1

/-! ## Claims -/

/-- C1: From any store whose records satisfy the data-model invariant,
every sequence of atomic system actions keeps the invariant (`artifactRef`
is set if and only if the status is COMPLETE, at every reachable state),
and each single action moves every job status only along
PENDING→PROCESSING→{COMPLETE, FAILED} or leaves it unchanged. -/
theorem claim_C1_status_machine_and_artifact_invariant (s : Store)
    (hinv : storeInv s = true) :
    (∀ acts : List Action, storeInv (run s acts) = true) ∧
    (∀ (acts : List Action) (a : Action),
      storeStepOk (run s acts) (run s (acts ++ [a]))) := by
  constructor
  · intro acts
    exact run_preserves_inv acts s hinv
  · intro acts a
    rw [run_append_one]
    exact (applyAction_preserves (run s acts) a
      (run_preserves_inv acts s hinv)).2

theorem claim_C1_witness :
    storeInv demoStore = true ∧
    storeInv (run demoStore [Action.cas "J1" 5,
      Action.finish "J1" (ConvOutcome.success "a") 6]) = true :=
  ⟨by decide,
    (claim_C1_status_machine_and_artifact_invariant demoStore (by decide)).1
      [Action.cas "J1" 5, Action.finish "J1" (ConvOutcome.success "a") 6]⟩

/-- C2: A valid submission (non-empty text, known voice) with the store up
returns the fresh id, publishes exactly that id as the one "job created"
event, creates exactly one new record (the store grows by one, every other
id is untouched), and the returned id immediately maps to a PENDING job,
also through the Query API. -/
theorem claim_C2_submission_creates_pending_job (kv : List String) (s : Store)
    (freshId voice text : String) (now : Nat)
    (hvalid : validSubmission kv voice text = true)
    (hfresh : lookupJob s freshId = none) :
    (newPost kv true s freshId voice text now).outcome = .ok freshId ∧
    (newPost kv true s freshId voice text now).published = [freshId] ∧
    lookupJob (newPost kv true s freshId voice text now).store freshId =
      some { id := freshId, status := .PENDING, text := text, voice := voice,
             artifactRef := none, updatedAt := now, errorNote := none } ∧
    (getPost (newPost kv true s freshId voice text now).store freshId).1 =
      .ok { id := freshId, status := .PENDING, text := text, voice := voice,
            artifactRef := none, updatedAt := now, errorNote := none } ∧
    (newPost kv true s freshId voice text now).store.length = s.length + 1 ∧
    (∀ other, other ≠ freshId →
      lookupJob (newPost kv true s freshId voice text now).store other =
        lookupJob s other) := by
  have hstore : (newPost kv true s freshId voice text now).store =
      putJob s freshId
        { id := freshId, status := .PENDING, text := text, voice := voice,
          artifactRef := none, updatedAt := now, errorNote := none } := by
    simp [newPost, hvalid]
  refine ⟨by simp [newPost, hvalid], by simp [newPost, hvalid], ?_, ?_, ?_, ?_⟩
  · rw [hstore, lookupJob_putJob_self]
  · rw [hstore]
    simp [getPost, lookupJob_putJob_self]
  · rw [hstore]
    exact putJob_length_fresh s freshId _ hfresh
  · intro other hne
    rw [hstore]
    exact lookupJob_putJob_other s freshId other _ hne

theorem claim_C2_witness :
    (newPost ["en-US-1"] true [] "J1" "en-US-1" "hello" 0).outcome = .ok "J1" ∧
    (newPost ["en-US-1"] true [] "J1" "en-US-1" "hello" 0).published = ["J1"] :=
  ⟨(claim_C2_submission_creates_pending_job ["en-US-1"] [] "J1" "en-US-1"
      "hello" 0 (by decide) rfl).1,
    (claim_C2_submission_creates_pending_job ["en-US-1"] [] "J1" "en-US-1"
      "hello" 0 (by decide) rfl).2.1⟩

/-- C3: The worker is idempotent keyed by job id: when the loaded job is
not PENDING the delivery is a complete no-op on the store, and delivering
the same "job created" event a second time (with any conversion outcome
and time) leaves the Job Store exactly as after the first delivery. -/
theorem claim_C3_worker_idempotent (s : Store) (jobId : String)
    (out out2 : ConvOutcome) (now now2 : Nat) :
    (∀ j, lookupJob s jobId = some j → j.status ≠ .PENDING →
      convertToAudio s jobId out now = s) ∧
    convertToAudio (convertToAudio s jobId out now) jobId out2 now2 =
      convertToAudio s jobId out now := by
  constructor
  · intro j hl hnp
    exact convertToAudio_noop s jobId out now j hl hnp
  · cases hl : lookupJob s jobId with
    | none =>
        rw [convertToAudio_absent s jobId out now hl,
          convertToAudio_absent s jobId out2 now2 hl]
    | some j =>
        by_cases hp : j.status = .PENDING
        · apply convertToAudio_noop _ jobId out2 now2 _
            (convertToAudio_pending_lookup s jobId out now j hl hp)
          rcases finalJob_status jobId
              { j with status := .PROCESSING, updatedAt := now } out now with
            h | h <;> rw [h] <;> intro hc <;> cases hc
        · rw [convertToAudio_noop s jobId out now j hl hp,
            convertToAudio_noop s jobId out2 now2 j hl hp]

theorem claim_C3_witness :
    convertToAudio (convertToAudio demoStore "J1" (ConvOutcome.success "a") 1)
        "J1" (ConvOutcome.failure "e") 2 =
      convertToAudio demoStore "J1" (ConvOutcome.success "a") 1 :=
  (claim_C3_worker_idempotent demoStore "J1" (ConvOutcome.success "a")
    (ConvOutcome.failure "e") 1 2).2

/-- C4: In any interleaving of atomic system actions — in particular any
concurrent duplicate deliveries racing over the same job id — at most one
delivery proceeds past the compare-and-swap PENDING→PROCESSING transition
for that id. -/
theorem claim_C4_at_most_one_cas_success (jobId : String) (acts : List Action) :
    ∀ s : Store, casSuccessCount s jobId acts ≤ 1 := by
  induction acts with
  | nil => intro s; exact Nat.zero_le 1
  | cons a rest ih =>
      intro s
      by_cases hc : casSuccess s jobId a = true
      · cases a with
        | submit kv up freshId voice text now => cases hc
        | finish jobId2 out now => cases hc
        | cas jobId2 now =>
            simp only [casSuccess, Bool.and_eq_true, decide_eq_true_eq] at hc
            obtain ⟨rfl, hsome⟩ := hc
            cases h : casPending s jobId2 now with
            | none => rw [h] at hsome; cases hsome
            | some s' =>
                obtain ⟨j, hl, hp, rfl⟩ := casPending_some_elim h
                have happly : applyAction s (Action.cas jobId2 now) =
                    putJob s jobId2 { j with status := .PROCESSING, updatedAt := now } := by
                  simp only [applyAction, h, Option.getD_some]
                have hrest : casSuccessCount
                    (applyAction s (Action.cas jobId2 now)) jobId2 rest = 0 := by
                  rw [happly]
                  exact casSuccessCount_zero_of_notPending rest _ jobId2 _
                    (lookupJob_putJob_self s jobId2 _) (by intro hx; cases hx)
                simp only [casSuccessCount, hrest]
                simp only [casSuccess, h, Option.isSome_some, Bool.and_true,
                  decide_eq_true_eq]
                split <;> simp
      · have hc' : casSuccess s jobId a = false := by
          cases hb : casSuccess s jobId a
          · rfl
          · exact absurd hb hc
        simp only [casSuccessCount, hc', Bool.false_eq_true, if_false,
          Nat.zero_add]
        exact ih (applyAction s a)

/-- C5: The Submission API fails with ValidationError exactly on malformed
input (empty text or unknown voice); with the input well-formed it fails
with StoreUnavailable exactly when the store write fails; and on any
failure it publishes no "job created" event and writes nothing. -/
theorem claim_C5_submission_errors (kv : List String) (up : Bool) (s : Store)
    (freshId voice text : String) (now : Nat) :
    ((newPost kv up s freshId voice text now).outcome =
        .error .ValidationError ↔ validSubmission kv voice text = false) ∧
    ((newPost kv up s freshId voice text now).outcome =
        .error .StoreUnavailable ↔
      (validSubmission kv voice text = true ∧ up = false)) ∧
    (∀ e, (newPost kv up s freshId voice text now).outcome = .error e →
      (newPost kv up s freshId voice text now).published = [] ∧
      (newPost kv up s freshId voice text now).store = s) := by
  by_cases hv : validSubmission kv voice text = true
  · by_cases hup : up = true
    · simp [newPost, hv, hup]
    · have hup' : up = false := by
        cases up
        · rfl
        · exact absurd rfl hup
      simp [newPost, hv, hup']
  · have hv' : validSubmission kv voice text = false := by
      cases hb : validSubmission kv voice text
      · rfl
      · exact absurd hb hv
    simp [newPost, hv']

theorem claim_C5_witness :
    (newPost ["en-US-1"] true [] "J1" "en-US-1" "" 0).published = [] ∧
    (newPost ["en-US-1"] true [] "J1" "en-US-1" "" 0).store = [] :=
  (claim_C5_submission_errors ["en-US-1"] true [] "J1" "en-US-1" "" 0).2.2
    SubmitError.ValidationError rfl

/-- C6: The Query API returns the current Job record when the id exists
and NotFound when it does not, and it never changes the Job Store. -/
theorem claim_C6_query_readonly (s : Store) (jobId : String) :
    (getPost s jobId).2 = s ∧
    (∀ j, lookupJob s jobId = some j → (getPost s jobId).1 = .ok j) ∧
    (lookupJob s jobId = none → (getPost s jobId).1 = .error .NotFound) := by
  cases hl : lookupJob s jobId <;> simp [getPost, hl]

theorem claim_C6_witness : (getPost ([] : Store) "J9").1 = .error .NotFound :=
  (claim_C6_query_readonly [] "J9").2.2 rfl

/-- C7: When the conversion fails for a PENDING job, the worker records
the failure on the job instead of crashing: the job ends FAILED with the
error note, its `artifactRef` stays none, and the Query API returns that
FAILED record. -/
theorem claim_C7_conversion_failure_recorded (s : Store) (jobId err : String)
    (now : Nat) (j : Job) (hl : lookupJob s jobId = some j)
    (hp : j.status = .PENDING) (hinv : jobInv j = true) :
    ∃ j', lookupJob (convertToAudio s jobId (.failure err) now) jobId = some j' ∧
      j'.status = .FAILED ∧ j'.artifactRef = none ∧ j'.errorNote = some err ∧
      (getPost (convertToAudio s jobId (.failure err) now) jobId).1 = .ok j' := by
  have href : j.artifactRef = none :=
    jobInv_artifactRef_none j hinv (by rw [hp]; intro hc; cases hc)
  have hlook := convertToAudio_pending_lookup s jobId (.failure err) now j hl hp
  refine ⟨finalJob jobId { j with status := .PROCESSING, updatedAt := now }
      (.failure err) now, hlook, ?_, ?_, ?_, ?_⟩
  · simp [finalJob]
  · simp [finalJob, href]
  · simp [finalJob]
  · simp [getPost, hlook]

theorem claim_C7_witness :
    ∃ j', lookupJob (convertToAudio demoStore "J1" (.failure "boom") 3) "J1" =
        some j' ∧
      j'.status = .FAILED ∧ j'.artifactRef = none ∧ j'.errorNote = some "boom" ∧
      (getPost (convertToAudio demoStore "J1" (.failure "boom") 3) "J1").1 =
        .ok j' :=
  claim_C7_conversion_failure_recorded demoStore "J1" "boom" 3 demoJobPending
    rfl rfl rfl

/-- C8: Every conversion call is bounded by the 300-second timeout of the
reference deployment, and an attempt whose duration reaches the timeout
drives the job to FAILED instead of leaving it in PROCESSING. -/
theorem claim_C8_timeout_bounded_and_fails (s : Store) (jobId : String)
    (now elapsed : Nat) (raw : Except String String) (j : Job)
    (hl : lookupJob s jobId = some j) (hp : j.status = .PENDING) :
    conversionWaitSeconds convTimeoutSeconds elapsed ≤ 300 ∧
    (elapsed ≥ convTimeoutSeconds →
      ∃ j', lookupJob (convertToAudio s jobId
          (boundedConversion convTimeoutSeconds elapsed raw) now) jobId =
            some j' ∧
        j'.status = .FAILED) := by
  constructor
  · simp [conversionWaitSeconds, convTimeoutSeconds]
  · intro ht
    have hout : boundedConversion convTimeoutSeconds elapsed raw = .timedOut := by
      simp [boundedConversion, ht]
    rw [hout]
    exact ⟨finalJob jobId { j with status := .PROCESSING, updatedAt := now }
        .timedOut now,
      convertToAudio_pending_lookup s jobId .timedOut now j hl hp,
      by simp [finalJob]⟩

theorem claim_C8_witness :
    conversionWaitSeconds convTimeoutSeconds 301 ≤ 300 ∧
    (∃ j', lookupJob (convertToAudio demoStore "J1"
        (boundedConversion convTimeoutSeconds 301 (.ok "a")) 4) "J1" = some j' ∧
      j'.status = .FAILED) :=
  ⟨(claim_C8_timeout_bounded_and_fails demoStore "J1" 4 301 (.ok "a")
      demoJobPending rfl rfl).1,
    (claim_C8_timeout_bounded_and_fails demoStore "J1" 4 301 (.ok "a")
      demoJobPending rfl rfl).2 (by decide)⟩

/-- C9: The public surface is exactly a GET and a POST on the API root;
the GET requires the `postId` querystring parameter; CORS is enabled with
the wildcard origin on the API and on every integration and method
response of both methods; the POST handler takes `{voice, text}` and
returns the fresh id or an error, and the GET handler returns a Job record
or an error. -/
theorem claim_C9_http_surface :
    apiRootMethods.map (fun m => m.httpMethod) = ["GET", "POST"] ∧
    getMethodCfg.requiredQuerystringParams = ["postId"] ∧
    apiCorsAllowOrigins = ["*"] ∧
    (∀ m ∈ apiRootMethods, ∀ r ∈ m.integrationResponses,
      r.corsAllowOrigin = some corsWildcard) ∧
    (∀ m ∈ apiRootMethods, ∀ mr ∈ m.methodResponses,
      mr.corsHeaderEnabled = true) ∧
    (∀ (kv : List String) (up : Bool) (s : Store)
        (freshId voice text : String) (now : Nat),
      (newPost kv up s freshId voice text now).outcome = .ok freshId ∨
      ∃ e, (newPost kv up s freshId voice text now).outcome = .error e) ∧
    (∀ (s : Store) (jobId : String),
      (∃ j, (getPost s jobId).1 = .ok j) ∨
      (getPost s jobId).1 = .error .NotFound) := by
  refine ⟨rfl, rfl, rfl, by decide, by decide, ?_, ?_⟩
  · intro kv up s freshId voice text now
    by_cases hv : validSubmission kv voice text = true
    · by_cases hup : up = true
      · left; simp [newPost, hv, hup]
      · right
        exact ⟨.StoreUnavailable, by simp [newPost, hv, hup]⟩
    · right
      exact ⟨.ValidationError, by simp [newPost, hv]⟩
  · intro s jobId
    cases hl : lookupJob s jobId with
    | some j => left; exact ⟨j, by simp [getPost, hl]⟩
    | none => right; simp [getPost, hl]

theorem claim_C9_witness :
    ({ selectionPattern := some anyCharClass, statusCode := "500",
       corsAllowOrigin := some corsWildcard } : IntegrationResponse).corsAllowOrigin =
      some corsWildcard :=
  claim_C9_http_surface.2.2.2.1 getMethodCfg (by decide) _ (by decide)

/-- C10: For both public methods, any non-empty error output from the
backing function selects the 500 integration response, which still carries
the wildcard `Access-Control-Allow-Origin` header. -/
theorem claim_C10_error_responses_cors (e : String) (he : e ≠ "") :
    (∃ r, selectIntegrationResponse getPostIntegrationResponses (some e) =
        some r ∧ r.statusCode = "500" ∧ r.corsAllowOrigin = some corsWildcard) ∧
    (∃ r, selectIntegrationResponse newPostIntegrationResponses (some e) =
        some r ∧ r.statusCode = "500" ∧ r.corsAllowOrigin = some corsWildcard) := by
  have hie : e.isEmpty = false := by
    cases hb : e.isEmpty
    · rfl
    · exact absurd ((String.isEmpty_iff e).mp hb) he
  have hsel1 : selectIntegrationResponse getPostIntegrationResponses (some e) =
      some { selectionPattern := some anyCharClass, statusCode := "500",
             corsAllowOrigin := some corsWildcard } := by
    simp [selectIntegrationResponse, getPostIntegrationResponses, List.find?,
      plusMatches_anyCharClass, hie]
  have hsel2 : selectIntegrationResponse newPostIntegrationResponses (some e) =
      some { selectionPattern := some anyCharClass, statusCode := "500",
             corsAllowOrigin := some corsWildcard } := by
    simp [selectIntegrationResponse, newPostIntegrationResponses, List.find?,
      plusMatches_anyCharClass, hie]
  exact ⟨⟨_, hsel1, rfl, rfl⟩, ⟨_, hsel2, rfl, rfl⟩⟩

theorem claim_C10_witness :
    (∃ r, selectIntegrationResponse getPostIntegrationResponses (some "err") =
        some r ∧ r.statusCode = "500" ∧ r.corsAllowOrigin = some corsWildcard) ∧
    (∃ r, selectIntegrationResponse newPostIntegrationResponses (some "err") =
        some r ∧ r.statusCode = "500" ∧ r.corsAllowOrigin = some corsWildcard) :=
  claim_C10_error_responses_cors "err" (by decide)

end PollyWorkflow
